import Mathlib

/-!
Shallow embedding of `process_nclimgrid.py` (climate_indices repository).

The embedded parts are the three in-scope components of the module:

* the variable-metadata resolver `_variable_attributes` (source lines 43-149),
  modelled by `Nclimgrid.variable_attributes`;
* the per-division diff computation of the `__main__` block (source lines
  293-338), modelled by `Nclimgrid.computeDiffs`;
* the diff-variable provisioning and write-back of the `__main__` block
  (source lines 340-378), modelled by `Nclimgrid.provision` /
  `Nclimgrid.persist`.

Modelling conventions:

* A float value of a NetCDF variable is modelled as `Option ℚ`; `none` is a
  NaN / masked ("missing") entry, matching `np.ma.masked_invalid` which masks
  every invalid float.  `np.ma` subtraction propagates the union of the masks,
  which `maskedSub` mirrors.
* A `netCDF4.Dataset` is modelled by `Store`: the content of its coordinate
  variable `division` (`dataset.variables['division'][:]`, a 1-D integer
  array), the size of its `time` variable (`dataset.variables['time'][:].size`)
  and the 2-D `(division, time)` data variables as an association list from
  variable name to a list of per-division rows.  NetCDF variable names are
  unique within a dataset, so lookup and in-place row assignment act on the
  first (only) entry with the given name.
* The Python `diffs` dictionary has `int` keys and is written under both the
  ordinal `division_index` key and the `division_id` key; it is modelled as a
  total function `Int → Option TimeSeries` updated pointwise, which is exactly
  a Python dict with last-write-wins semantics.
* `dataset.createVariable(name, type, ('division','time'), fill_value=np.NaN)`
  yields a variable whose rows are entirely fill (= missing), modelled by
  `fillRows`.  The NetCDF datatype selection (`netcdf_utils.find_netcdf_datatype`
  on a random sample) does not affect any stored value here, where all numeric
  values live in `ℚ`.
* Exceptions are modelled with `Except String`; log output and NetCDF side
  effects of the write-back section are recorded in an explicit `Event` trace.
  The trace alphabet also contains `lockAcquire` / `lockRelease` for the
  module-level `multiprocessing.Lock()` of source line 39, so that claims about
  lock usage around the write section are expressible.
-/

namespace Nclimgrid

/-! ## Metadata resolver (source lines 43-149) -/

/-- The attribute dictionary built by `_variable_attributes`.  The source
returns a Python dict whose keys are `standard_name`, `long_name`,
`valid_min`, `valid_max` and (for `pet` and `pnp` only) `units`; the optional
`units` key is modelled with `Option String`.  In every supported case the
source sets `standard_name` to its local `variable_name`, so the
`standard_name` field carries the derived variable name. -/
structure IndexMetadataRecord where
  standard_name : String
  long_name : String
  valid_min : ℚ
  valid_max : ℚ
  units : Option String
deriving DecidableEq, Repr

/-- Python `str` applied to the `months` argument: an integer renders as its
decimal digits, `None` renders as the four characters `"None"`. -/
def pyStr : Option Nat → String
  | none => "None"
  | some n => Nat.repr n

/-- Python `str.zfill`: pad on the left with `'0'` up to the given width. -/
def zfill (width : Nat) (s : String) : String :=
  if s.length < width then String.mk (List.replicate (width - s.length) '0') ++ s else s

/-- `_variable_attributes(index_name, months=None)` (source lines 43-149):
the if/elif chain over the six fixed-name indices, then the scaled-name
branch which builds `variable_name = index_name + '_' + str(months).zfill(2)`
and dispatches over the five time-scaled indices, raising
`ValueError('{0} is an unsupported index type'.format(index_name))` in the
final else.  The raise is modelled as `Except.error` carrying the message. -/
def variable_attributes (index_name : String) (months : Option Nat) :
    Except String IndexMetadataRecord :=
  if index_name = "pet" then
    .ok { standard_name := "pet",
          long_name := "Potential Evapotranspiration (PET), from Thornthwaite\x27s equation",
          valid_min := 0.0, valid_max := 2000.0, units := some "millimeter" }
  else if index_name = "pdsi" then
    .ok { standard_name := "pdsi",
          long_name := "Palmer Drought Severity Index (PDSI)",
          valid_min := -10.0, valid_max := 10.0, units := none }
  else if index_name = "scpdsi" then
    .ok { standard_name := "scpdsi",
          long_name := "Self-calibrated Palmer Drought Severity Index (PDSI)",
          valid_min := -10.0, valid_max := 10.0, units := none }
  else if index_name = "phdi" then
    .ok { standard_name := "phdi",
          long_name := "Palmer Hydrological Drought Index (PHDI)",
          valid_min := -10.0, valid_max := 10.0, units := none }
  else if index_name = "pmdi" then
    .ok { standard_name := "pmdi",
          long_name := "Palmer Modified Drought Index (PMDI)",
          valid_min := -10.0, valid_max := 10.0, units := none }
  else if index_name = "zindex" then
    .ok { standard_name := "zindex",
          long_name := "Palmer Z-Index",
          valid_min := -10.0, valid_max := 10.0, units := none }
  else
    let variable_name := index_name ++ "_" ++ zfill 2 (pyStr months)
    if index_name = "pnp" then
      .ok { standard_name := variable_name,
            long_name := "Percent average precipitation, " ++ pyStr months ++ "-month scale",
            valid_min := 0, valid_max := 10.0, units := some "percent of average" }
    else if index_name = "spi_gamma" then
      .ok { standard_name := variable_name,
            long_name := "SPI (Gamma), " ++ pyStr months ++ "-month scale",
            valid_min := -3.09, valid_max := 3.09, units := none }
    else if index_name = "spi_pearson" then
      .ok { standard_name := variable_name,
            long_name := "SPI (Pearson), " ++ pyStr months ++ "-month scale",
            valid_min := -3.09, valid_max := 3.09, units := none }
    else if index_name = "spei_gamma" then
      .ok { standard_name := variable_name,
            long_name := "SPEI (Gamma), " ++ pyStr months ++ "-month scale",
            valid_min := -3.09, valid_max := 3.09, units := none }
    else if index_name = "spei_pearson" then
      .ok { standard_name := variable_name,
            long_name := "SPEI (Pearson), " ++ pyStr months ++ "-month scale",
            valid_min := -3.09, valid_max := 3.09, units := none }
    else
      .error (index_name ++ " is an unsupported index type")

/-- The six fixed-name indices of the first if/elif chain. -/
def fixedIndexNames : List String := ["pet", "pdsi", "scpdsi", "phdi", "pmdi", "zindex"]

/-- The five time-scaled indices of the inner if/elif chain. -/
def scaledIndexNames : List String :=
  ["pnp", "spi_gamma", "spi_pearson", "spei_gamma", "spei_pearson"]

/-- A variable name of the form `base ++ "_" ++ suffix` where the suffix is a
zero-padded two-digit rendering of a numeric time scale (the well-formed shape
the spec prescribes for scaled indices). -/
def hasTwoDigitScaleSuffix (base s : String) : Prop :=
  ∃ k : Nat, (zfill 2 (Nat.repr k)).length = 2 ∧ s = base ++ "_" ++ zfill 2 (Nat.repr k)

/-! ## The array store (a `netCDF4.Dataset` opened in append mode) -/

/-- One `(division, time)` row: a division's time series.  `none` entries are
NaN / fill ("missing") values. -/
abbrev TimeSeries := List (Option ℚ)

/-- The dataset: `divisions` is the content of `dataset.variables['division'][:]`,
`timeSize` is `dataset.variables['time'][:].size`, and `variables` holds the
2-D `(division, time)` data variables by name, one row per division. -/
structure Store where
  divisions : List Int
  timeSize : Nat
  vars : List (String × List TimeSeries)
deriving DecidableEq

/-- First-match association-list lookup, i.e. `dataset.variables[name]`
(NetCDF names are unique, so first match is the only match). -/
def lookupVar : List (String × List TimeSeries) → String → Option (List TimeSeries)
  | [], _ => none
  | (n, rows) :: rest, name => if n = name then some rows else lookupVar rest name

/-- `dataset.variables[name]`, as an `Option` for a possibly-absent name. -/
def Store.getVar (s : Store) (name : String) : Option (List TimeSeries) :=
  lookupVar s.vars name

/-- In-place row assignment `variable[i, :] = arr` on the variable called
`name`: the first entry with that name gets row `i` replaced, every other
entry is untouched.  (Like `List.set`, it is a no-op if `name` is absent.) -/
def setVarRow : List (String × List TimeSeries) → String → Nat → TimeSeries →
    List (String × List TimeSeries)
  | [], _, _, _ => []
  | (n, rows) :: rest, name, i, arr =>
    if n = name then (n, rows.set i arr) :: rest
    else (n, rows) :: setVarRow rest name i arr

/-- Row assignment lifted to the store. -/
def Store.setRow (s : Store) (name : String) (i : Nat) (arr : TimeSeries) : Store :=
  { s with vars := setVarRow s.vars name i arr }

/-- Row `i` of variable `name`: `dataset.variables[name][i, :]` (empty when the
variable or the row does not exist). -/
def rowAt (s : Store) (name : String) (i : Nat) : TimeSeries :=
  ((s.getVar name).getD []).getD i []

/-! ## Diff computation engine (source lines 293-338) -/

/-- Subtraction of two `np.ma` masked values: masked (missing) as soon as
either operand is masked, otherwise the float difference. -/
def maskedSub : Option ℚ → Option ℚ → Option ℚ
  | some a, some b => some (a - b)
  | _, _ => none

/-- Source line 316, `differences = data_CMB - data_NIDIS`: elementwise masked
subtraction of the reference (CMB, `var_names[0]`) row and the candidate
(NIDIS, `var_names[1]`) row. -/
def seriesDiff (refRow candRow : TimeSeries) : TimeSeries :=
  List.zipWith maskedSub refRow candRow

/-- The Python `diffs` dict: `int` keys (ordinal `division_index` keys and
`division_id` keys share one namespace), absent keys map to `none`. -/
def DiffMap : Type := Int → Option TimeSeries

/-- Python dict assignment `diffs[k] = v` (last write wins). -/
def DiffMap.insert (m : DiffMap) (k : Int) (v : TimeSeries) : DiffMap :=
  fun q => if q = k then some v else m q

/-- The empty dict `diffs = {}` of source line 300. -/
def DiffMap.empty : DiffMap := fun _ => none

/-- The difference series computed in loop iteration `i` (source lines
312-316): mask the reference and candidate rows of division ordinal `i` and
subtract. -/
def divisionDiff (s : Store) (refVar candVar : String) (i : Nat) : TimeSeries :=
  seriesDiff (rowAt s refVar i) (rowAt s candVar i)

/-- The loop `for division_index, division_id in enumerate(dataset.variables['division'][:])`
(source lines 307-338), with the plotting side effects omitted: at counter `i`
with current identifier `divId`, store the difference under the ordinal key
(line 317) and then under the identifier key (line 338). -/
def diffLoop (s : Store) (refVar candVar : String) : Nat → List Int → DiffMap → DiffMap
  | _, [], m => m
  | i, divId :: rest, m =>
    diffLoop s refVar candVar (i + 1) rest
      ((m.insert (i : Int) (divisionDiff s refVar candVar i)).insert divId
        (divisionDiff s refVar candVar i))

/-- The accumulated `diffs` dict produced for one comparison pair. -/
def computeDiffs (s : Store) (refVar candVar : String) : DiffMap :=
  diffLoop s refVar candVar 0 s.divisions DiffMap.empty

/-! ## Variable provisioner (source lines 340-378) -/

/-- Observable steps of the write-back section.  `lockAcquire` / `lockRelease`
model uses of the module-level `multiprocessing.Lock()` of source line 39 (the
write section would have to emit them to serialize writers). -/
inductive Event where
  | createVar (name : String)
  | writeRow (name : String) (division_index : Nat)
  | logMsg (msg : String)
  | lockAcquire
  | lockRelease
deriving DecidableEq, Repr

/-- The diagnostic of source lines 377-378:
`'Unexpected size of data array for division index {0} -- '.format(division_index) +
 'expected {0} time steps but the array contains {1}'.format(times_size, data_array.size)`. -/
def mismatchMsg (division_index timeSize arraySize : Nat) : String :=
  "Unexpected size of data array for division index " ++ Nat.repr division_index ++
    " -- expected " ++ Nat.repr timeSize ++ " time steps but the array contains " ++
    Nat.repr arraySize

/-- The content of a freshly created `(division, time)` variable with
`fill_value=np.NaN`: every entry of every row is fill (= missing). -/
def fillRows (numDivisions timeSize : Nat) : List TimeSeries :=
  List.replicate numDivisions (List.replicate timeSize none)

/-- Source lines 340-357: if `diff_variable_name` is already among
`dataset.variables.keys()` the existing variable object is used, otherwise
`dataset.createVariable` appends a new all-fill variable over
`('division', 'time')`. -/
def provision (s : Store) (name : String) : Store × List Event :=
  if (s.getVar name).isSome then (s, [])
  else ({ s with vars :=
            s.vars ++ [(name, fillRows s.divisions.length s.timeSize)] },
        [Event.createVar name])

/-- Source lines 363-378: the write loop
`for division_index, division_id in enumerate(list(dataset.variables['division'][:]))`.
At counter `i`: when `division_index in diffs.keys()`, either assign the array
into row `i` of the variable (when its size equals `times_size`) or log the
size-mismatch diagnostic; otherwise do nothing. -/
def writeLoop (timeSize : Nat) (diffs : DiffMap) (name : String) :
    Nat → List Int → Store → Store × List Event
  | _, [], st => (st, [])
  | i, _divId :: rest, st =>
    match diffs (i : Int) with
    | none => writeLoop timeSize diffs name (i + 1) rest st
    | some arr =>
      if arr.length = timeSize then
        let r := writeLoop timeSize diffs name (i + 1) rest (st.setRow name i arr)
        (r.1, Event.writeRow name i :: r.2)
      else
        let r := writeLoop timeSize diffs name (i + 1) rest st
        (r.1, Event.logMsg (mismatchMsg i timeSize arr.length) :: r.2)

/-- The whole persistence step for one comparison (source lines 340-378):
derive `diff_variable_name = 'diffs_' + index`, provision the variable, read
`times_size = dataset.variables['time'][:].size` and run the write loop over
the division list.  Returns the updated store and the event trace. -/
def persist (s : Store) (diffs : DiffMap) (label : String) : Store × List Event :=
  let name := "diffs_" ++ label
  let pr := provision s name
  let r := writeLoop pr.1.timeSize diffs name 0 pr.1.divisions pr.1
  (r.1, pr.2 ++ r.2)

/-! ## Concrete stores used to instantiate the claims -/

/-- The end-to-end scenario store of the spec: divisions `[101, 102]`, time
size 4, reference variable `cmb_zndx` and candidate variable `zindex`. -/
def exampleStore : Store :=
  { divisions := [101, 102]
    timeSize := 4
    vars :=
      [("cmb_zndx", [[some 1, some 2, some 3, some 4], [some 5, some 6, some 7, some 8]]),
       ("zindex", [[some 1, some 1, some 2, some 5], [some 5, some 6, some 7, some 9]])] }

/-- A store whose first division identifier `1` collides with the ordinal
position of its second division, with rows chosen so the two divisions have
different diffs. -/
def collidingStore : Store :=
  { divisions := [1, 5]
    timeSize := 1
    vars :=
      [("wrcc_pdsi", [[some 0], [some 0]]),
       ("pdsi", [[some 1], [some 2]])] }

/-- A store with a missing (NaN) reference entry at time step 0 of its only
division. -/
def missingStore : Store :=
  { divisions := [7]
    timeSize := 2
    vars :=
      [("cmb_zndx", [[none, some 1]]),
       ("zindex", [[some 2, some 3]])] }

/-- A store that already contains a two-division `diffs_Z-Index` variable and
an unrelated variable, for persistence claims. -/
def persistStore : Store :=
  { divisions := [101, 102]
    timeSize := 2
    vars :=
      [("other_var", [[some 9, some 9], [some 8, some 8]]),
       ("diffs_Z-Index", [[some 5, some 5], [some 6, some 6]])] }

/-- A diff map holding a correct-length array for ordinal 0 and a too-short
array for ordinal 1 of `persistStore`. -/
def persistDiffs : DiffMap :=
  fun k => if k = 0 then some [some 1, some 2] else if k = 1 then some [some 3] else none

/-! ## Helper lemmas about the diff dictionary and the diff loop -/

theorem DiffMap.insert_same (m : DiffMap) (k : Int) (v : TimeSeries) :
    m.insert k v k = some v := by
  simp [DiffMap.insert]

theorem DiffMap.insert_other (m : DiffMap) {k q : Int} (v : TimeSeries) (h : q ≠ k) :
    m.insert k v q = m q := by
  simp [DiffMap.insert, h]

/-- Keys that are neither a remaining identifier nor a remaining ordinal are
not modified by the rest of the diff loop. -/
theorem diffLoop_untouched (s : Store) (refVar candVar : String) :
    ∀ (l : List Int) (i : Nat) (m : DiffMap) (k : Int),
      (∀ d ∈ l, k ≠ d) → (∀ q, q < l.length → k ≠ ((i + q : Nat) : Int)) →
      diffLoop s refVar candVar i l m k = m k := by
  intro l
  induction l with
  | nil => intro i m k _ _; rfl
  | cons d rest ih =>
    intro i m k h1 h2
    have hrest : diffLoop s refVar candVar (i + 1) rest
        ((m.insert (i : Int) (divisionDiff s refVar candVar i)).insert d
          (divisionDiff s refVar candVar i)) k =
        ((m.insert (i : Int) (divisionDiff s refVar candVar i)).insert d
          (divisionDiff s refVar candVar i)) k := by
      refine ih (i + 1) _ k (fun d' hd' => h1 d' (List.mem_cons_of_mem _ hd')) ?_
      intro q hq
      have h := h2 (q + 1) (by simpa using Nat.succ_lt_succ hq)
      have : i + (q + 1) = i + 1 + q := by omega
      rwa [this] at h
    have hkd : k ≠ d := h1 d (List.mem_cons_self d rest)
    have hki : k ≠ (i : Int) := by
      have h := h2 0 (by simp)
      simpa using h
    show diffLoop s refVar candVar (i + 1) rest _ k = m k
    rw [hrest, DiffMap.insert_other _ _ hkd, DiffMap.insert_other _ _ hki]

/-- After the diff loop, the ordinal key `i + p` holds the diff of division
ordinal `i + p`, provided no later division identifier equals that ordinal. -/
theorem diffLoop_ordinal (s : Store) (refVar candVar : String) :
    ∀ (l : List Int) (i : Nat) (m : DiffMap) (p : Nat) (hp : p < l.length),
      (∀ q (hq : q < l.length), p < q → l.get ⟨q, hq⟩ ≠ ((i + p : Nat) : Int)) →
      diffLoop s refVar candVar i l m ((i + p : Nat) : Int) =
        some (divisionDiff s refVar candVar (i + p)) := by
  intro l
  induction l with
  | nil => intro i m p hp; exact absurd hp (by simp)
  | cons d rest ih =>
    intro i m p hp hlater
    match p with
    | 0 =>
      simp only [Nat.add_zero, diffLoop]
      have hkey : ((m.insert (i : Int) (divisionDiff s refVar candVar i)).insert d
          (divisionDiff s refVar candVar i)) ((i : Nat) : Int) =
          some (divisionDiff s refVar candVar i) := by
        by_cases hd : ((i : Nat) : Int) = d
        · rw [hd]
          exact DiffMap.insert_same _ _ _
        · rw [DiffMap.insert_other _ _ hd]
          exact DiffMap.insert_same _ _ _
      have huntouched : diffLoop s refVar candVar (i + 1) rest
          ((m.insert (i : Int) (divisionDiff s refVar candVar i)).insert d
            (divisionDiff s refVar candVar i)) ((i : Nat) : Int) =
          ((m.insert (i : Int) (divisionDiff s refVar candVar i)).insert d
            (divisionDiff s refVar candVar i)) ((i : Nat) : Int) := by
        refine diffLoop_untouched s refVar candVar rest (i + 1) _ _ ?_ ?_
        · intro d' hd'
          obtain ⟨⟨q, hq⟩, hget⟩ := List.mem_iff_get.mp hd'
          have hne := hlater (q + 1) (by simpa using Nat.succ_lt_succ hq) (Nat.succ_pos q)
          simp only [List.get_cons_succ, Nat.add_zero] at hne
          rw [← hget]
          exact fun hc => hne hc.symm
        · intro q hq hc
          have : (i : Int) = ((i + 1 + q : Nat) : Int) := by simpa using hc
          omega
      rw [huntouched, hkey]
    | p' + 1 =>
      simp only [diffLoop]
      have hres : i + (p' + 1) = i + 1 + p' := by omega
      have hcast : ((i + (p' + 1) : Nat) : Int) = ((i + 1 + p' : Nat) : Int) := by omega
      rw [hcast, hres]
      refine ih (i + 1) _ p' (by simpa using Nat.lt_of_succ_lt_succ hp) ?_
      intro q hq hpq
      have hne := hlater (q + 1) (by simpa using Nat.succ_lt_succ hq) (Nat.succ_lt_succ hpq)
      simp only [List.get_cons_succ] at hne
      rwa [hres] at hne

/-- After the diff loop, a division's identifier key holds that division's own
diff, provided no later division repeats the identifier and no later ordinal
equals it. -/
theorem diffLoop_byId (s : Store) (refVar candVar : String) :
    ∀ (l : List Int) (i : Nat) (m : DiffMap) (p : Nat) (hp : p < l.length),
      (∀ q (hq : q < l.length), p < q → l.get ⟨q, hq⟩ ≠ l.get ⟨p, hp⟩) →
      (∀ q, p < q → q < l.length → ((i + q : Nat) : Int) ≠ l.get ⟨p, hp⟩) →
      diffLoop s refVar candVar i l m (l.get ⟨p, hp⟩) =
        some (divisionDiff s refVar candVar (i + p)) := by
  intro l
  induction l with
  | nil => intro i m p hp; exact absurd hp (by simp)
  | cons d rest ih =>
    intro i m p hp hids hords
    match p, hp with
    | 0, hp =>
      have hget0 : (d :: rest).get ⟨0, hp⟩ = d := rfl
      rw [hget0] at hids hords ⊢
      simp only [diffLoop, Nat.add_zero]
      have hkey : ((m.insert (i : Int) (divisionDiff s refVar candVar i)).insert d
          (divisionDiff s refVar candVar i)) d =
          some (divisionDiff s refVar candVar i) :=
        DiffMap.insert_same _ _ _
      have huntouched : diffLoop s refVar candVar (i + 1) rest
          ((m.insert (i : Int) (divisionDiff s refVar candVar i)).insert d
            (divisionDiff s refVar candVar i)) d =
          ((m.insert (i : Int) (divisionDiff s refVar candVar i)).insert d
            (divisionDiff s refVar candVar i)) d := by
        refine diffLoop_untouched s refVar candVar rest (i + 1) _ _ ?_ ?_
        · intro d' hd'
          obtain ⟨⟨q, hq⟩, hget⟩ := List.mem_iff_get.mp hd'
          have hne := hids (q + 1) (by simpa using Nat.succ_lt_succ hq) (Nat.succ_pos q)
          simp only [List.get_cons_succ] at hne
          rw [← hget]
          exact fun hc => hne hc.symm
        · intro q hq hc
          have hne := hords (q + 1) (Nat.succ_pos q) (by simpa using Nat.succ_lt_succ hq)
          have harith : i + (q + 1) = i + 1 + q := by omega
          rw [harith] at hne
          exact hne hc.symm
      rw [huntouched, hkey]
    | p' + 1, hp =>
      have hp' : p' < rest.length := by simpa using Nat.lt_of_succ_lt_succ hp
      have hgets : (d :: rest).get ⟨p' + 1, hp⟩ = rest.get ⟨p', hp'⟩ := rfl
      rw [hgets] at hids hords ⊢
      simp only [diffLoop]
      have hres : i + (p' + 1) = i + 1 + p' := by omega
      rw [hres]
      refine ih (i + 1) _ p' hp' ?_ ?_
      · intro q hq hpq
        have hne := hids (q + 1) (by simpa using Nat.succ_lt_succ hq) (Nat.succ_lt_succ hpq)
        simpa only [List.get_cons_succ] using hne
      · intro q hpq hq
        have hne := hords (q + 1) (Nat.succ_lt_succ hpq) (by simpa using Nat.succ_lt_succ hq)
        have harith : i + (q + 1) = i + 1 + q := by omega
        rwa [harith] at hne

/-- Every value held by the diff map after the loop is the diff of one of the
processed division ordinals (or was already in the starting map). -/
theorem diffLoop_range (s : Store) (refVar candVar : String) :
    ∀ (l : List Int) (i : Nat) (m : DiffMap) (k : Int) (arr : TimeSeries),
      diffLoop s refVar candVar i l m k = some arr →
      (∃ j, i ≤ j ∧ j < i + l.length ∧ arr = divisionDiff s refVar candVar j) ∨
        m k = some arr := by
  intro l
  induction l with
  | nil => intro i m k arr h; exact Or.inr h
  | cons d rest ih =>
    intro i m k arr h
    simp only [diffLoop] at h
    rcases ih (i + 1) _ k arr h with ⟨j, hj1, hj2, hj3⟩ | hm
    · refine Or.inl ⟨j, by omega, ?_, hj3⟩
      simp only [List.length_cons]
      omega
    · by_cases hkd : k = d
      · rw [hkd, DiffMap.insert_same] at hm
        refine Or.inl ⟨i, le_rfl, by simp, (Option.some.inj hm).symm⟩
      · rw [DiffMap.insert_other _ _ hkd] at hm
        by_cases hki : k = (i : Int)
        · rw [hki, DiffMap.insert_same] at hm
          refine Or.inl ⟨i, le_rfl, by simp, (Option.some.inj hm).symm⟩
        · rw [DiffMap.insert_other _ _ hki] at hm
          exact Or.inr hm

/-! ## Helper lemmas about masked subtraction -/

/-- A missing operand at time step `t` (including a `t` beyond the row's
length) makes the masked difference missing at `t`. -/
theorem seriesDiff_missing :
    ∀ (refRow candRow : TimeSeries) (t : Nat),
      refRow.getD t none = none ∨ candRow.getD t none = none →
      (seriesDiff refRow candRow).getD t none = none := by
  intro A
  induction A with
  | nil => intro B t _; simp [seriesDiff]
  | cons a A ih =>
    intro B t h
    cases B with
    | nil => simp [seriesDiff]
    | cons b B =>
      cases t with
      | zero =>
        simp only [List.getD_cons_zero] at h
        simp only [seriesDiff, List.zipWith_cons_cons, List.getD_cons_zero]
        rcases h with h | h
        · rw [h]
          rfl
        · rw [h]
          cases a <;> rfl
      | succ t =>
        simp only [List.getD_cons_succ] at h
        simpa [seriesDiff] using ih B t h

/-- On rows with no missing values, the masked difference is the plain
elementwise difference. -/
theorem seriesDiff_map_some (a b : List ℚ) :
    seriesDiff (a.map some) (b.map some) =
      List.zipWith (fun x y => some (x - y)) a b := by
  simp [seriesDiff, List.zipWith_map, maskedSub]

/-! ## Helper lemmas about variable lookup and row assignment -/

theorem lookupVar_append_of_none (l1 l2 : List (String × List TimeSeries)) (n : String)
    (h : lookupVar l1 n = none) : lookupVar (l1 ++ l2) n = lookupVar l2 n := by
  induction l1 with
  | nil => rfl
  | cons p rest ih =>
    obtain ⟨pn, pr⟩ := p
    simp only [lookupVar] at h
    simp only [List.cons_append, lookupVar]
    by_cases hpn : pn = n
    · rw [if_pos hpn] at h
      exact absurd h (by simp)
    · rw [if_neg hpn] at h
      rw [if_neg hpn]
      exact ih h

theorem lookupVar_eq_none_iff (l : List (String × List TimeSeries)) (n : String) :
    lookupVar l n = none ↔ n ∉ l.map Prod.fst := by
  induction l with
  | nil => simp [lookupVar]
  | cons p rest ih =>
    obtain ⟨pn, pr⟩ := p
    simp only [lookupVar, List.map_cons, List.mem_cons]
    by_cases hpn : pn = n
    · simp [hpn]
    · simp only [if_neg hpn, ih]
      constructor
      · intro h hc
        rcases hc with hc | hc
        · exact hpn hc.symm
        · exact h hc
      · intro h hc
        exact h (Or.inr hc)

theorem lookupVar_setVarRow_self (l : List (String × List TimeSeries)) (name : String)
    (i : Nat) (arr : TimeSeries) :
    lookupVar (setVarRow l name i arr) name =
      (lookupVar l name).map (fun rows => rows.set i arr) := by
  induction l with
  | nil => rfl
  | cons p rest ih =>
    obtain ⟨pn, pr⟩ := p
    by_cases hpn : pn = name
    · simp [setVarRow, lookupVar, hpn]
    · simp [setVarRow, lookupVar, hpn, ih]

theorem lookupVar_setVarRow_other (l : List (String × List TimeSeries)) (name : String)
    (i : Nat) (arr : TimeSeries) (v : String) (h : v ≠ name) :
    lookupVar (setVarRow l name i arr) v = lookupVar l v := by
  induction l with
  | nil => rfl
  | cons p rest ih =>
    obtain ⟨pn, pr⟩ := p
    by_cases hpn : pn = name
    · subst hpn
      simp [setVarRow, lookupVar, Ne.symm h]
    · simp only [setVarRow, if_neg hpn, lookupVar]
      by_cases hpv : pn = v
      · simp [hpv]
      · simp [hpv, ih]

theorem setVarRow_keys (l : List (String × List TimeSeries)) (name : String)
    (i : Nat) (arr : TimeSeries) :
    (setVarRow l name i arr).map Prod.fst = l.map Prod.fst := by
  induction l with
  | nil => rfl
  | cons p rest ih =>
    obtain ⟨pn, pr⟩ := p
    by_cases hpn : pn = name
    · simp [setVarRow, hpn]
    · simp [setVarRow, hpn, ih]

theorem Store.getVar_setRow_self (s : Store) (name : String) (i : Nat) (arr : TimeSeries) :
    (s.setRow name i arr).getVar name =
      (s.getVar name).map (fun rows => rows.set i arr) :=
  lookupVar_setVarRow_self s.vars name i arr

theorem Store.getVar_setRow_other (s : Store) (name : String) (i : Nat) (arr : TimeSeries)
    (v : String) (h : v ≠ name) :
    (s.setRow name i arr).getVar v = s.getVar v :=
  lookupVar_setVarRow_other s.vars name i arr v h

theorem list_getD_set_self {α : Type} (l : List α) (i : Nat) (a d : α) (h : i < l.length) :
    (l.set i a).getD i d = a := by
  simp [List.getD_eq_getElem?_getD, List.getElem?_set_self h]

theorem list_getD_set_other {α : Type} (l : List α) {i j : Nat} (a d : α) (h : i ≠ j) :
    (l.set i a).getD j d = l.getD j d := by
  simp [List.getD_eq_getElem?_getD, List.getElem?_set_ne h]

theorem rowAt_setRow_same (s : Store) (name : String) (i : Nat) (arr : TimeSeries)
    (rows : List TimeSeries) (h : s.getVar name = some rows) (hi : i < rows.length) :
    rowAt (s.setRow name i arr) name i = arr := by
  simp only [rowAt, Store.getVar_setRow_self, h, Option.map_some, Option.getD_some]
  exact list_getD_set_self rows i arr [] hi

theorem rowAt_setRow_other_row (s : Store) (name : String) (i : Nat) (arr : TimeSeries)
    (j : Nat) (h : i ≠ j) :
    rowAt (s.setRow name i arr) name j = rowAt s name j := by
  simp only [rowAt, Store.getVar_setRow_self]
  cases hv : s.getVar name with
  | none => simp
  | some rows => simpa using list_getD_set_other rows arr [] h

theorem setVarRow_setVarRow (l : List (String × List TimeSeries)) (name : String)
    (i : Nat) (a b : TimeSeries) :
    setVarRow (setVarRow l name i a) name i b = setVarRow l name i b := by
  induction l with
  | nil => rfl
  | cons p rest ih =>
    obtain ⟨pn, pr⟩ := p
    by_cases hpn : pn = name
    · simp [setVarRow, hpn, List.set_set]
    · simp [setVarRow, hpn, ih]

theorem setVarRow_comm (l : List (String × List TimeSeries)) (name : String)
    {i j : Nat} (a b : TimeSeries) (h : i ≠ j) :
    setVarRow (setVarRow l name i a) name j b = setVarRow (setVarRow l name j b) name i a := by
  induction l with
  | nil => rfl
  | cons p rest ih =>
    obtain ⟨pn, pr⟩ := p
    by_cases hpn : pn = name
    · simp [setVarRow, hpn, List.set_comm a b pr h]
    · simp [setVarRow, hpn, ih]

theorem Store.setRow_setRow (s : Store) (name : String) (i : Nat) (a b : TimeSeries) :
    (s.setRow name i a).setRow name i b = s.setRow name i b := by
  simp [Store.setRow, setVarRow_setVarRow]

theorem Store.setRow_comm (s : Store) (name : String) {i j : Nat} (a b : TimeSeries)
    (h : i ≠ j) :
    (s.setRow name i a).setRow name j b = (s.setRow name j b).setRow name i a := by
  simp [Store.setRow, setVarRow_comm _ _ _ _ h]

/-! ## Helper lemmas about the write loop -/

theorem writeLoop_divisions (T : Nat) (d : DiffMap) (name : String) :
    ∀ (l : List Int) (i : Nat) (st : Store),
      (writeLoop T d name i l st).1.divisions = st.divisions := by
  intro l
  induction l with
  | nil => intro i st; rfl
  | cons dv rest ih =>
    intro i st
    simp only [writeLoop]
    cases hd : d (i : Int) with
    | none => exact ih (i + 1) st
    | some arr =>
      by_cases hlen : arr.length = T
      · simp only [if_pos hlen]
        rw [ih]
        rfl
      · simp only [if_neg hlen]
        exact ih (i + 1) st

theorem writeLoop_timeSize (T : Nat) (d : DiffMap) (name : String) :
    ∀ (l : List Int) (i : Nat) (st : Store),
      (writeLoop T d name i l st).1.timeSize = st.timeSize := by
  intro l
  induction l with
  | nil => intro i st; rfl
  | cons dv rest ih =>
    intro i st
    simp only [writeLoop]
    cases hd : d (i : Int) with
    | none => exact ih (i + 1) st
    | some arr =>
      by_cases hlen : arr.length = T
      · simp only [if_pos hlen]
        rw [ih]
        rfl
      · simp only [if_neg hlen]
        exact ih (i + 1) st

theorem writeLoop_keys (T : Nat) (d : DiffMap) (name : String) :
    ∀ (l : List Int) (i : Nat) (st : Store),
      (writeLoop T d name i l st).1.vars.map Prod.fst = st.vars.map Prod.fst := by
  intro l
  induction l with
  | nil => intro i st; rfl
  | cons dv rest ih =>
    intro i st
    simp only [writeLoop]
    cases hd : d (i : Int) with
    | none => exact ih (i + 1) st
    | some arr =>
      by_cases hlen : arr.length = T
      · simp only [if_pos hlen]
        rw [ih]
        exact setVarRow_keys _ _ _ _
      · simp only [if_neg hlen]
        exact ih (i + 1) st

theorem writeLoop_getVar_other (T : Nat) (d : DiffMap) (name : String) :
    ∀ (l : List Int) (i : Nat) (st : Store) (v : String), v ≠ name →
      (writeLoop T d name i l st).1.getVar v = st.getVar v := by
  intro l
  induction l with
  | nil => intro i st v _; rfl
  | cons dv rest ih =>
    intro i st v hv
    simp only [writeLoop]
    cases hd : d (i : Int) with
    | none => exact ih (i + 1) st v hv
    | some arr =>
      by_cases hlen : arr.length = T
      · simp only [if_pos hlen]
        rw [ih _ _ _ hv]
        exact Store.getVar_setRow_other st name i arr v hv
      · simp only [if_neg hlen]
        exact ih (i + 1) st v hv

theorem writeLoop_getVar_some (T : Nat) (d : DiffMap) (name : String) :
    ∀ (l : List Int) (i : Nat) (st : Store) (rows : List TimeSeries),
      st.getVar name = some rows →
      ∃ rows', (writeLoop T d name i l st).1.getVar name = some rows' ∧
        rows'.length = rows.length := by
  intro l
  induction l with
  | nil => intro i st rows h; exact ⟨rows, h, rfl⟩
  | cons dv rest ih =>
    intro i st rows h
    simp only [writeLoop]
    cases hd : d (i : Int) with
    | none => exact ih (i + 1) st rows h
    | some arr =>
      by_cases hlen : arr.length = T
      · simp only [if_pos hlen]
        have hset : (st.setRow name i arr).getVar name = some (rows.set i arr) := by
          rw [Store.getVar_setRow_self, h]
          rfl
        obtain ⟨rows', h1, h2⟩ := ih (i + 1) _ _ hset
        exact ⟨rows', h1, by simpa using h2⟩
      · simp only [if_neg hlen]
        exact ih (i + 1) st rows h

theorem writeLoop_row_low (T : Nat) (d : DiffMap) (name : String) :
    ∀ (l : List Int) (i : Nat) (st : Store) (j : Nat), j < i →
      rowAt (writeLoop T d name i l st).1 name j = rowAt st name j := by
  intro l
  induction l with
  | nil => intro i st j _; rfl
  | cons dv rest ih =>
    intro i st j hj
    simp only [writeLoop]
    cases hd : d (i : Int) with
    | none => exact ih (i + 1) st j (by omega)
    | some arr =>
      by_cases hlen : arr.length = T
      · simp only [if_pos hlen]
        rw [ih (i + 1) _ j (by omega)]
        exact rowAt_setRow_other_row st name i arr j (by omega)
      · simp only [if_neg hlen]
        exact ih (i + 1) st j (by omega)

/-- A row whose ordinal either has no diff entry or a wrong-length diff entry
is never assigned by the write loop. -/
theorem writeLoop_row_untouched (T : Nat) (d : DiffMap) (name : String) :
    ∀ (l : List Int) (i : Nat) (st : Store) (j : Nat),
      (∀ arr, d (j : Int) = some arr → arr.length ≠ T) →
      rowAt (writeLoop T d name i l st).1 name j = rowAt st name j := by
  intro l
  induction l with
  | nil => intro i st j _; rfl
  | cons dv rest ih =>
    intro i st j hj
    simp only [writeLoop]
    cases hd : d (i : Int) with
    | none => exact ih (i + 1) st j hj
    | some arr =>
      by_cases hlen : arr.length = T
      · simp only [if_pos hlen]
        by_cases hij : i = j
        · subst hij
          exact absurd hlen (hj arr hd)
        · rw [ih (i + 1) _ j hj]
          exact rowAt_setRow_other_row st name i arr j hij
      · simp only [if_neg hlen]
        exact ih (i + 1) st j hj

/-- A correct-length diff entry for a processed ordinal is written verbatim
into that ordinal's row by the write loop. -/
theorem writeLoop_row_write (T : Nat) (d : DiffMap) (name : String) :
    ∀ (l : List Int) (i : Nat) (st : Store) (p : Nat), p < l.length →
      ∀ arr, d ((i + p : Nat) : Int) = some arr → arr.length = T →
      ∀ rows, st.getVar name = some rows → i + p < rows.length →
      rowAt (writeLoop T d name i l st).1 name (i + p) = arr := by
  intro l
  induction l with
  | nil => intro i st p hp; exact absurd hp (by simp)
  | cons dv rest ih =>
    intro i st p hp arr harr hlen rows hrows hlt
    match p with
    | 0 =>
      simp only [Nat.add_zero] at harr hlt ⊢
      simp only [writeLoop, harr, if_pos hlen]
      rw [writeLoop_row_low T d name rest (i + 1) _ i (Nat.lt_succ_self i)]
      exact rowAt_setRow_same st name i arr rows hrows hlt
    | p' + 1 =>
      have harith : i + (p' + 1) = i + 1 + p' := by omega
      rw [harith] at harr hlt ⊢
      have hp' : p' < rest.length := by simpa using Nat.lt_of_succ_lt_succ hp
      simp only [writeLoop]
      cases hd : d (i : Int) with
      | none => exact ih (i + 1) st p' hp' arr harr hlen rows hrows hlt
      | some arr0 =>
        by_cases hlen0 : arr0.length = T
        · simp only [if_pos hlen0]
          have hrows' : (st.setRow name i arr0).getVar name = some (rows.set i arr0) := by
            rw [Store.getVar_setRow_self, hrows]
            rfl
          exact ih (i + 1) _ p' hp' arr harr hlen _ hrows' (by simpa using hlt)
        · simp only [if_neg hlen0]
          exact ih (i + 1) st p' hp' arr harr hlen rows hrows hlt

/-- A wrong-length diff entry for a processed ordinal makes the write loop
log the size-mismatch diagnostic for that ordinal. -/
theorem writeLoop_mismatch_event (T : Nat) (d : DiffMap) (name : String) :
    ∀ (l : List Int) (i : Nat) (st : Store) (p : Nat), p < l.length →
      ∀ arr, d ((i + p : Nat) : Int) = some arr → arr.length ≠ T →
      Event.logMsg (mismatchMsg (i + p) T arr.length) ∈ (writeLoop T d name i l st).2 := by
  intro l
  induction l with
  | nil => intro i st p hp; exact absurd hp (by simp)
  | cons dv rest ih =>
    intro i st p hp arr harr hlen
    match p with
    | 0 =>
      simp only [Nat.add_zero] at harr ⊢
      simp only [writeLoop, harr, if_neg hlen]
      exact List.mem_cons_self _ _
    | p' + 1 =>
      have harith : i + (p' + 1) = i + 1 + p' := by omega
      rw [harith] at harr ⊢
      have hp' : p' < rest.length := by simpa using Nat.lt_of_succ_lt_succ hp
      simp only [writeLoop]
      cases hd : d (i : Int) with
      | none => exact ih (i + 1) st p' hp' arr harr hlen
      | some arr0 =>
        by_cases hlen0 : arr0.length = T
        · simp only [if_pos hlen0]
          exact List.mem_cons_of_mem _ (ih (i + 1) _ p' hp' arr harr hlen)
        · simp only [if_neg hlen0]
          exact List.mem_cons_of_mem _ (ih (i + 1) st p' hp' arr harr hlen)

/-- The write loop emits only row writes (on the diff variable) and log
messages: in particular no variable creation and no lock events. -/
theorem writeLoop_events (T : Nat) (d : DiffMap) (name : String) :
    ∀ (l : List Int) (i : Nat) (st : Store) (e : Event), e ∈ (writeLoop T d name i l st).2 →
      (∃ j, e = Event.writeRow name j) ∨ (∃ msg, e = Event.logMsg msg) := by
  intro l
  induction l with
  | nil => intro i st e he; exact absurd he (by simp [writeLoop])
  | cons dv rest ih =>
    intro i st e he
    simp only [writeLoop] at he
    split at he
    · exact ih (i + 1) st e he
    · split at he
      · rcases List.mem_cons.mp he with he | he
        · exact Or.inl ⟨i, he⟩
        · exact ih (i + 1) _ e he
      · rcases List.mem_cons.mp he with he | he
        · exact Or.inr ⟨_, he⟩
        · exact ih (i + 1) st e he

theorem writeLoop_comm (T : Nat) (d : DiffMap) (name : String) :
    ∀ (l : List Int) (i : Nat) (st : Store) (j : Nat) (arr : TimeSeries), j < i →
      (writeLoop T d name i l (st.setRow name j arr)).1 =
        ((writeLoop T d name i l st).1).setRow name j arr := by
  intro l
  induction l with
  | nil => intro i st j arr _; rfl
  | cons dv rest ih =>
    intro i st j arr hj
    simp only [writeLoop]
    cases hd : d (i : Int) with
    | none => exact ih (i + 1) st j arr (by omega)
    | some arr0 =>
      by_cases hlen : arr0.length = T
      · simp only [if_pos hlen]
        rw [Store.setRow_comm st name arr arr0 (by omega)]
        exact ih (i + 1) (st.setRow name i arr0) j arr (by omega)
      · simp only [if_neg hlen]
        exact ih (i + 1) st j arr (by omega)

/-- Running the write loop a second time over its own result changes
nothing: every row it writes is rewritten with the same array. -/
theorem writeLoop_idem (T : Nat) (d : DiffMap) (name : String) :
    ∀ (l : List Int) (i : Nat) (st : Store),
      (writeLoop T d name i l (writeLoop T d name i l st).1).1 =
        (writeLoop T d name i l st).1 := by
  intro l
  induction l with
  | nil => intro i st; rfl
  | cons dv rest ih =>
    intro i st
    simp only [writeLoop]
    cases hd : d (i : Int) with
    | none => exact ih (i + 1) st
    | some arr =>
      by_cases hlen : arr.length = T
      · simp only [if_pos hlen]
        have hab : ((writeLoop T d name (i + 1) rest (st.setRow name i arr)).1).setRow name i arr
            = (writeLoop T d name (i + 1) rest (st.setRow name i arr)).1 := by
          rw [← writeLoop_comm T d name rest (i + 1) (st.setRow name i arr) i arr
              (Nat.lt_succ_self i), Store.setRow_setRow]
        rw [hab]
        exact ih (i + 1) (st.setRow name i arr)
      · simp only [if_neg hlen]
        exact ih (i + 1) st

/-! ## Helper lemmas about provisioning and persistence -/

theorem lookupVar_append_other (l1 : List (String × List TimeSeries)) (name : String)
    (x : List TimeSeries) (v : String) (h : v ≠ name) :
    lookupVar (l1 ++ [(name, x)]) v = lookupVar l1 v := by
  induction l1 with
  | nil => simp [lookupVar, Ne.symm h]
  | cons p rest ih =>
    obtain ⟨pn, pr⟩ := p
    simp only [List.cons_append, lookupVar]
    by_cases hpv : pn = v
    · simp [hpv]
    · simp [hpv, ih]

theorem provision_of_present (s : Store) (name : String) (h : (s.getVar name).isSome) :
    provision s name = (s, []) := by
  simp [provision, h]

theorem provision_of_absent (s : Store) (name : String) (h : s.getVar name = none) :
    provision s name =
      ({ s with vars := s.vars ++ [(name, fillRows s.divisions.length s.timeSize)] },
       [Event.createVar name]) := by
  simp [provision, h]

theorem provision_getVar (s : Store) (name : String) :
    ((provision s name).1.getVar name).isSome := by
  by_cases h : (s.getVar name).isSome
  · rw [provision_of_present s name h]
    exact h
  · have hn : s.getVar name = none := Option.not_isSome_iff_eq_none.mp h
    rw [provision_of_absent s name hn]
    show (lookupVar (s.vars ++ [(name, fillRows s.divisions.length s.timeSize)]) name).isSome
    rw [lookupVar_append_of_none _ _ _ hn]
    simp [lookupVar]

theorem provision_getVar_other (s : Store) (name : String) (v : String) (h : v ≠ name) :
    (provision s name).1.getVar v = s.getVar v := by
  by_cases hp : (s.getVar name).isSome
  · rw [provision_of_present s name hp]
  · rw [provision_of_absent s name (Option.not_isSome_iff_eq_none.mp hp)]
    exact lookupVar_append_other s.vars name _ v h

/-- `persist` is definitionally the write loop over the provisioned store. -/
theorem persist_fst (s : Store) (d : DiffMap) (label : String) :
    (persist s d label).1 =
      (writeLoop (provision s ("diffs_" ++ label)).1.timeSize d ("diffs_" ++ label) 0
        (provision s ("diffs_" ++ label)).1.divisions (provision s ("diffs_" ++ label)).1).1 :=
  rfl

theorem persist_of_present (s : Store) (d : DiffMap) (label : String)
    (h : (s.getVar ("diffs_" ++ label)).isSome) :
    persist s d label = writeLoop s.timeSize d ("diffs_" ++ label) 0 s.divisions s := by
  simp [persist, provision_of_present s _ h]

theorem persist_of_absent (s : Store) (d : DiffMap) (label : String)
    (h : s.getVar ("diffs_" ++ label) = none) :
    persist s d label =
      ((writeLoop s.timeSize d ("diffs_" ++ label) 0 s.divisions
          { s with vars := s.vars ++
              [("diffs_" ++ label, fillRows s.divisions.length s.timeSize)] }).1,
       Event.createVar ("diffs_" ++ label) ::
         (writeLoop s.timeSize d ("diffs_" ++ label) 0 s.divisions
           { s with vars := s.vars ++
               [("diffs_" ++ label, fillRows s.divisions.length s.timeSize)] }).2) := by
  simp [persist, provision_of_absent s _ h]

/-- After `persist` the diff variable is always present. -/
theorem persist_getVar (s : Store) (d : DiffMap) (label : String) :
    ((persist s d label).1.getVar ("diffs_" ++ label)).isSome := by
  obtain ⟨rows, hrows⟩ :=
    Option.isSome_iff_exists.mp (provision_getVar s ("diffs_" ++ label))
  rw [persist_fst]
  obtain ⟨rows', h1, _⟩ :=
    writeLoop_getVar_some (provision s ("diffs_" ++ label)).1.timeSize d ("diffs_" ++ label)
      (provision s ("diffs_" ++ label)).1.divisions 0 (provision s ("diffs_" ++ label)).1
      rows hrows
  rw [h1]
  rfl

theorem persist_timeSize (s : Store) (d : DiffMap) (label : String) :
    (persist s d label).1.timeSize = (provision s ("diffs_" ++ label)).1.timeSize := by
  rw [persist_fst]
  exact writeLoop_timeSize _ _ _ _ _ _

theorem persist_divisions (s : Store) (d : DiffMap) (label : String) :
    (persist s d label).1.divisions = (provision s ("diffs_" ++ label)).1.divisions := by
  rw [persist_fst]
  exact writeLoop_divisions _ _ _ _ _ _

/-- Running `persist` a second time with the same diff map leaves the store
unchanged. -/
theorem persist_idem (s : Store) (d : DiffMap) (label : String) :
    (persist (persist s d label).1 d label).1 = (persist s d label).1 := by
  have hpres : (((persist s d label).1).getVar ("diffs_" ++ label)).isSome :=
    persist_getVar s d label
  rw [persist_of_present _ d label hpres, persist_timeSize, persist_divisions, persist_fst]
  exact writeLoop_idem _ _ _ _ _ _

/-- Retrieval by ordinal key, for stores whose division identifiers are all at
least the number of divisions (so no identifier collides with an ordinal). -/
theorem computeDiffs_ordinal (s : Store) (refVar candVar : String) (p : Nat)
    (hp : p < s.divisions.length)
    (hsep : ∀ dv ∈ s.divisions, ((s.divisions.length : Nat) : Int) ≤ dv) :
    computeDiffs s refVar candVar ((p : Nat) : Int) =
      some (divisionDiff s refVar candVar p) := by
  have hmain := diffLoop_ordinal s refVar candVar s.divisions 0 DiffMap.empty p hp ?_
  · simpa using hmain
  · intro q hq _
    have hmem := hsep (s.divisions.get ⟨q, hq⟩) (List.get_mem _ _ _)
    intro hc
    rw [hc] at hmem
    omega

/-- Retrieval by identifier key, for stores with pairwise-distinct division
identifiers that are all at least the number of divisions. -/
theorem computeDiffs_byId (s : Store) (refVar candVar : String)
    (hnd : s.divisions.Nodup)
    (hsep : ∀ dv ∈ s.divisions, ((s.divisions.length : Nat) : Int) ≤ dv)
    (p : Nat) (hp : p < s.divisions.length) :
    computeDiffs s refVar candVar (s.divisions.get ⟨p, hp⟩) =
      some (divisionDiff s refVar candVar p) := by
  have hmain := diffLoop_byId s refVar candVar s.divisions 0 DiffMap.empty p hp ?_ ?_
  · simpa using hmain
  · intro q hq hpq hc
    have := congrArg Fin.val (List.nodup_iff_injective_get.mp hnd hc)
    simp only at this
    omega
  · intro q hpq hq hc
    have hmem := hsep (s.divisions.get ⟨p, hp⟩) (List.get_mem _ _ _)
    rw [← hc] at hmem
    omega

theorem persist_snd (s : Store) (d : DiffMap) (label : String) :
    (persist s d label).2 =
      (provision s ("diffs_" ++ label)).2 ++
        (writeLoop (provision s ("diffs_" ++ label)).1.timeSize d ("diffs_" ++ label) 0
          (provision s ("diffs_" ++ label)).1.divisions
          (provision s ("diffs_" ++ label)).1).2 :=
  rfl

theorem provision_events (s : Store) (name : String) :
    ∀ e ∈ (provision s name).2, ∃ n, e = Event.createVar n := by
  intro e he
  unfold provision at he
  split at he
  · exact absurd he (by simp)
  · exact ⟨name, by simpa using he⟩

/-! ## Claim theorems -/

/-- C3: for every index identifier outside the supported set (neither a
fixed-name index `pet`/`pdsi`/`scpdsi`/`phdi`/`pmdi`/`zindex` nor a
time-scaled index `pnp`/`spi_gamma`/`spi_pearson`/`spei_gamma`/`spei_pearson`),
and for any value of the time-scale argument, the metadata resolver never
returns a record: it raises an unsupported-index error whose payload carries
the offending identifier (the source raises `ValueError` with the message
`'{0} is an unsupported index type'.format(index_name)`). -/
theorem c3_unsupported_index_error (index_name : String) (months : Option Nat)
    (hf : index_name ∉ fixedIndexNames) (hs : index_name ∉ scaledIndexNames) :
    variable_attributes index_name months =
      .error (index_name ++ " is an unsupported index type") := by
  simp only [fixedIndexNames, List.mem_cons, List.not_mem_nil, or_false, not_or] at hf
  simp only [scaledIndexNames, List.mem_cons, List.not_mem_nil, or_false, not_or] at hs
  obtain ⟨h1, h2, h3, h4, h5, h6⟩ := hf
  obtain ⟨g1, g2, g3, g4, g5⟩ := hs
  simp only [variable_attributes, if_neg h1, if_neg h2, if_neg h3, if_neg h4, if_neg h5,
    if_neg h6, if_neg g1, if_neg g2, if_neg g3, if_neg g4, if_neg g5]

/-- Witness for C3 at the spec's concrete input `resolve("bogus_index", None)`. -/
theorem c3_witness :
    "bogus_index" ∉ fixedIndexNames ∧ "bogus_index" ∉ scaledIndexNames ∧
      variable_attributes "bogus_index" none =
        .error ("bogus_index" ++ " is an unsupported index type") :=
  ⟨by decide, by decide,
    c3_unsupported_index_error "bogus_index" none (by decide) (by decide)⟩

/-- C4: for every supported index identifier the metadata resolver returns a
record whose variable name (carried in the `standard_name` attribute, which
the source always sets to its local `variable_name`) follows the derivation
rule — the identifier itself for fixed-name indices, the identifier plus an
underscore plus the zero-padded two-digit scale for time-scaled indices — and
whose `valid_min`/`valid_max` equal the documented constants; in particular
`resolve("spi_gamma", 3)` yields `"spi_gamma_03"` with range
`[-3.09, 3.09]` and `resolve("pdsi", None)` yields `"pdsi"` with range
`[-10.0, 10.0]`. -/
theorem c4_resolver_records :
    (∀ months : Option Nat, variable_attributes "pet" months = .ok
      { standard_name := "pet",
        long_name := "Potential Evapotranspiration (PET), from Thornthwaite\x27s equation",
        valid_min := 0.0, valid_max := 2000.0, units := some "millimeter" }) ∧
    (∀ months : Option Nat, variable_attributes "pdsi" months = .ok
      { standard_name := "pdsi", long_name := "Palmer Drought Severity Index (PDSI)",
        valid_min := -10.0, valid_max := 10.0, units := none }) ∧
    (∀ months : Option Nat, variable_attributes "scpdsi" months = .ok
      { standard_name := "scpdsi",
        long_name := "Self-calibrated Palmer Drought Severity Index (PDSI)",
        valid_min := -10.0, valid_max := 10.0, units := none }) ∧
    (∀ months : Option Nat, variable_attributes "phdi" months = .ok
      { standard_name := "phdi", long_name := "Palmer Hydrological Drought Index (PHDI)",
        valid_min := -10.0, valid_max := 10.0, units := none }) ∧
    (∀ months : Option Nat, variable_attributes "pmdi" months = .ok
      { standard_name := "pmdi", long_name := "Palmer Modified Drought Index (PMDI)",
        valid_min := -10.0, valid_max := 10.0, units := none }) ∧
    (∀ months : Option Nat, variable_attributes "zindex" months = .ok
      { standard_name := "zindex", long_name := "Palmer Z-Index",
        valid_min := -10.0, valid_max := 10.0, units := none }) ∧
    (∀ k : Nat, variable_attributes "pnp" (some k) = .ok
      { standard_name := "pnp" ++ "_" ++ zfill 2 (Nat.repr k),
        long_name := "Percent average precipitation, " ++ Nat.repr k ++ "-month scale",
        valid_min := 0, valid_max := 10.0, units := some "percent of average" }) ∧
    (∀ k : Nat, variable_attributes "spi_gamma" (some k) = .ok
      { standard_name := "spi_gamma" ++ "_" ++ zfill 2 (Nat.repr k),
        long_name := "SPI (Gamma), " ++ Nat.repr k ++ "-month scale",
        valid_min := -3.09, valid_max := 3.09, units := none }) ∧
    (∀ k : Nat, variable_attributes "spi_pearson" (some k) = .ok
      { standard_name := "spi_pearson" ++ "_" ++ zfill 2 (Nat.repr k),
        long_name := "SPI (Pearson), " ++ Nat.repr k ++ "-month scale",
        valid_min := -3.09, valid_max := 3.09, units := none }) ∧
    (∀ k : Nat, variable_attributes "spei_gamma" (some k) = .ok
      { standard_name := "spei_gamma" ++ "_" ++ zfill 2 (Nat.repr k),
        long_name := "SPEI (Gamma), " ++ Nat.repr k ++ "-month scale",
        valid_min := -3.09, valid_max := 3.09, units := none }) ∧
    (∀ k : Nat, variable_attributes "spei_pearson" (some k) = .ok
      { standard_name := "spei_pearson" ++ "_" ++ zfill 2 (Nat.repr k),
        long_name := "SPEI (Pearson), " ++ Nat.repr k ++ "-month scale",
        valid_min := -3.09, valid_max := 3.09, units := none }) ∧
    variable_attributes "spi_gamma" (some 3) = .ok
      { standard_name := "spi_gamma_03", long_name := "SPI (Gamma), 3-month scale",
        valid_min := -3.09, valid_max := 3.09, units := none } ∧
    variable_attributes "pdsi" none = .ok
      { standard_name := "pdsi", long_name := "Palmer Drought Severity Index (PDSI)",
        valid_min := -10.0, valid_max := 10.0, units := none } :=
  ⟨fun _ => rfl, fun _ => rfl, fun _ => rfl, fun _ => rfl, fun _ => rfl, fun _ => rfl,
    fun _ => rfl, fun _ => rfl, fun _ => rfl, fun _ => rfl, fun _ => rfl, rfl, rfl⟩

/-- C9: for every time-scaled index identifier, a resolver call without a
time-scale does not return a well-formed record whose variable name carries a
zero-padded two-digit scale suffix: the source renders `str(None)` so the
returned record's name ends in `"_None"`, which is not a two-digit scale
suffix. -/
theorem c9_time_scale_required :
    ∀ name ∈ scaledIndexNames,
      ∃ r, variable_attributes name none = .ok r ∧
        r.standard_name = name ++ "_None" ∧
        ¬ hasTwoDigitScaleSuffix name r.standard_name := by
  have hsuffix : ∀ base : String, ¬ hasTwoDigitScaleSuffix base (base ++ "_None") := by
    intro base h
    obtain ⟨k, hlen, heq⟩ := h
    have hl := congrArg String.length heq
    rw [String.length_append, String.length_append, String.length_append, hlen] at hl
    have h5 : "_None".length = 5 := rfl
    have h1 : "_".length = 1 := rfl
    rw [h5, h1] at hl
    omega
  intro name hname
  simp only [scaledIndexNames, List.mem_cons, List.not_mem_nil, or_false] at hname
  rcases hname with rfl | rfl | rfl | rfl | rfl
  · exact ⟨_, rfl, rfl, fun h => hsuffix "pnp" h⟩
  · exact ⟨_, rfl, rfl, fun h => hsuffix "spi_gamma" h⟩
  · exact ⟨_, rfl, rfl, fun h => hsuffix "spi_pearson" h⟩
  · exact ⟨_, rfl, rfl, fun h => hsuffix "spei_gamma" h⟩
  · exact ⟨_, rfl, rfl, fun h => hsuffix "spei_pearson" h⟩

/-- Witness for C9 at `resolve("spi_gamma", None)`. -/
theorem c9_witness :
    ∃ r, variable_attributes "spi_gamma" none = .ok r ∧
      r.standard_name = "spi_gamma" ++ "_None" ∧
      ¬ hasTwoDigitScaleSuffix "spi_gamma" r.standard_name :=
  c9_time_scale_required "spi_gamma" (by decide)

/-- Counterexample to C1 as stated: at the spec's end-to-end scenario store,
the diff recorded for division 101 is `[0, 1, 1, -1]` (reference minus
candidate), not the claimed `[0, -1, -1, 1]` (candidate minus reference). -/
theorem c1_counterexample :
    computeDiffs exampleStore "cmb_zndx" "zindex" 101 =
      some [some 0, some 1, some 1, some (-1)] ∧
    computeDiffs exampleStore "cmb_zndx" "zindex" 101 ≠
      some [some 0, some (-1), some (-1), some 1] := by
  constructor
  · with_unfolding_all decide
  · with_unfolding_all decide

/-- C1 (amended): for every division, the computed difference equals
reference minus candidate elementwise (`differences = data_CMB - data_NIDIS`
at source line 316): for equal-length numeric series `a` (reference) and `b`
(candidate) with no missing values, the diff computation yields `a - b` at
every position, order-preserving; in the spec's scenario store the diffs are
`[0, 1, 1, -1]` and `[0, 0, 0, -1]`.  Stated for retrieval at the ordinal
key, for stores whose division identifiers do not collide with ordinal
positions. -/
theorem c1_diff_reference_minus_candidate (s : Store) (refVar candVar : String)
    (R C : List TimeSeries) (hR : s.getVar refVar = some R) (hC : s.getVar candVar = some C)
    (p : Nat) (hp : p < s.divisions.length)
    (hsep : ∀ dv ∈ s.divisions, ((s.divisions.length : Nat) : Int) ≤ dv)
    (a b : List ℚ) (ha : R.getD p [] = a.map some) (hb : C.getD p [] = b.map some) :
    computeDiffs s refVar candVar ((p : Nat) : Int) =
      some (List.zipWith (fun x y => some (x - y)) a b) := by
  rw [computeDiffs_ordinal s refVar candVar p hp hsep]
  have hrow1 : rowAt s refVar p = a.map some := by
    simp only [rowAt, hR, Option.getD_some]
    exact ha
  have hrow2 : rowAt s candVar p = b.map some := by
    simp only [rowAt, hC, Option.getD_some]
    exact hb
  rw [divisionDiff, hrow1, hrow2, seriesDiff_map_some]

/-- Witness for the amended C1 at the spec's scenario store: both divisions'
diffs are the reference row minus the candidate row. -/
theorem c1_witness :
    computeDiffs exampleStore "cmb_zndx" "zindex" ((0 : Nat) : Int) =
      some (List.zipWith (fun x y => some (x - y)) [1, 2, 3, 4] [1, 1, 2, 5]) ∧
    computeDiffs exampleStore "cmb_zndx" "zindex" ((1 : Nat) : Int) =
      some (List.zipWith (fun x y => some (x - y)) [5, 6, 7, 8] [5, 6, 7, 9]) :=
  ⟨c1_diff_reference_minus_candidate exampleStore "cmb_zndx" "zindex" _ _ rfl rfl 0
      (by decide) (by decide) [1, 2, 3, 4] [1, 1, 2, 5] rfl rfl,
    c1_diff_reference_minus_candidate exampleStore "cmb_zndx" "zindex" _ _ rfl rfl 1
      (by decide) (by decide) [5, 6, 7, 8] [5, 6, 7, 9] rfl rfl⟩

/-- C5: for every division and every time-step position, if the reference
series or the candidate series (or both) is missing at that position, the
computed difference held by the diff map is missing there as well — the
masked subtraction never produces a spurious numeric value. -/
theorem c5_missing_propagates (s : Store) (refVar candVar : String) (k : Int)
    (arr : TimeSeries) (h : computeDiffs s refVar candVar k = some arr) :
    ∃ i, i < s.divisions.length ∧ arr = divisionDiff s refVar candVar i ∧
      ∀ t : Nat,
        (rowAt s refVar i).getD t none = none ∨ (rowAt s candVar i).getD t none = none →
        arr.getD t none = none := by
  rcases diffLoop_range s refVar candVar s.divisions 0 DiffMap.empty k arr h with
    ⟨j, _, hj2, hj3⟩ | hm
  · refine ⟨j, by simpa using hj2, hj3, ?_⟩
    intro t ht
    rw [hj3]
    exact seriesDiff_missing _ _ t ht
  · exact absurd hm (by simp [DiffMap.empty])

/-- Witness for C5 at a store with a NaN reference entry: the diff for the
only division is missing at position 0. -/
theorem c5_witness :
    ∃ i, i < missingStore.divisions.length ∧
      ([none, some (-2)] : TimeSeries) = divisionDiff missingStore "cmb_zndx" "zindex" i ∧
      ∀ t : Nat,
        (rowAt missingStore "cmb_zndx" i).getD t none = none ∨
          (rowAt missingStore "zindex" i).getD t none = none →
        ([none, some (-2)] : TimeSeries).getD t none = none :=
  c5_missing_propagates missingStore "cmb_zndx" "zindex" 0 [none, some (-2)]
    (by with_unfolding_all decide)

/-- Counterexample to C8 as stated: in `collidingStore` the first division has
identifier 1, which is also the ordinal position of the second division; the
second loop iteration overwrites the identifier-keyed entry, so retrieval by
the first division's identifier returns the second division's diff `[-2]`
instead of its own diff `[-1]`. -/
theorem c8_counterexample :
    collidingStore.divisions.get ⟨0, by decide⟩ = 1 ∧
    computeDiffs collidingStore "wrcc_pdsi" "pdsi" ((0 : Nat) : Int) = some [some (-1)] ∧
    computeDiffs collidingStore "wrcc_pdsi" "pdsi" 1 = some [some (-2)] ∧
    computeDiffs collidingStore "wrcc_pdsi" "pdsi" 1 ≠ some [some (-1)] := by
  refine ⟨rfl, ?_, ?_, ?_⟩
  · with_unfolding_all decide
  · with_unfolding_all decide
  · with_unfolding_all decide

/-- C8 (amended): the diff map holds one entry per division under each of the
two key schemes — retrievable by ordinal position and by division identifier,
both yielding that division's own diff — provided the division identifiers
are pairwise distinct and do not collide with ordinal positions (identifiers
at least the number of divisions suffice). -/
theorem c8_dual_key_retrieval (s : Store) (refVar candVar : String)
    (hnd : s.divisions.Nodup)
    (hsep : ∀ dv ∈ s.divisions, ((s.divisions.length : Nat) : Int) ≤ dv)
    (p : Nat) (hp : p < s.divisions.length) :
    computeDiffs s refVar candVar ((p : Nat) : Int) =
      some (divisionDiff s refVar candVar p) ∧
    computeDiffs s refVar candVar (s.divisions.get ⟨p, hp⟩) =
      some (divisionDiff s refVar candVar p) :=
  ⟨computeDiffs_ordinal s refVar candVar p hp hsep,
    computeDiffs_byId s refVar candVar hnd hsep p hp⟩

/-- Witness for the amended C8 at the spec's scenario store: division 101
(ordinal 0) is retrievable both ways. -/
theorem c8_witness :
    computeDiffs exampleStore "cmb_zndx" "zindex" ((0 : Nat) : Int) =
      some (divisionDiff exampleStore "cmb_zndx" "zindex" 0) ∧
    computeDiffs exampleStore "cmb_zndx" "zindex" (exampleStore.divisions.get ⟨0, by decide⟩) =
      some (divisionDiff exampleStore "cmb_zndx" "zindex" 0) :=
  c8_dual_key_retrieval exampleStore "cmb_zndx" "zindex" (by decide) (by decide) 0 (by decide)

/-- C2: for a division whose diff array length equals the store's time size
the array is written verbatim into that division's row; for a division whose
diff array length differs, the write is skipped (the row keeps its prior
content), a diagnostic naming the division ordinal and the expected and
actual lengths is logged, and `persist` still returns (non-fatal). -/
theorem c2_shape_mismatch_skip (s : Store) (d : DiffMap) (label : String)
    (rows : List TimeSeries) (hvar : s.getVar ("diffs_" ++ label) = some rows)
    (hlen : rows.length = s.divisions.length)
    (p : Nat) (hp : p < s.divisions.length) (arr : TimeSeries)
    (harr : d ((p : Nat) : Int) = some arr) :
    (arr.length = s.timeSize →
      rowAt (persist s d label).1 ("diffs_" ++ label) p = arr) ∧
    (arr.length ≠ s.timeSize →
      rowAt (persist s d label).1 ("diffs_" ++ label) p = rows.getD p [] ∧
      Event.logMsg (mismatchMsg p s.timeSize arr.length) ∈ (persist s d label).2) := by
  have hpres : (s.getVar ("diffs_" ++ label)).isSome := by
    rw [hvar]
    rfl
  rw [persist_of_present s d label hpres]
  constructor
  · intro heq
    have hw := writeLoop_row_write s.timeSize d ("diffs_" ++ label) s.divisions 0 s p hp arr
      (by simpa using harr) heq rows hvar (by omega)
    simpa using hw
  · intro hne
    have hu : ∀ arr', d ((p : Nat) : Int) = some arr' → arr'.length ≠ s.timeSize := by
      intro arr' harr'
      rw [harr] at harr'
      injection harr' with h
      subst h
      exact hne
    constructor
    · rw [writeLoop_row_untouched s.timeSize d ("diffs_" ++ label) s.divisions 0 s p hu]
      simp only [rowAt, hvar, Option.getD_some]
    · have hm := writeLoop_mismatch_event s.timeSize d ("diffs_" ++ label) s.divisions 0 s p hp
        arr (by simpa using harr) hne
      simpa using hm

/-- Witness for C2 at `persistStore`: ordinal 0 has a correct-length diff and
is written verbatim; ordinal 1 has a length-1 diff against time size 2, its
row keeps its prior content and the diagnostic is logged. -/
theorem c2_witness :
    rowAt (persist persistStore persistDiffs "Z-Index").1 "diffs_Z-Index" 0 =
      [some 1, some 2] ∧
    (rowAt (persist persistStore persistDiffs "Z-Index").1 "diffs_Z-Index" 1 =
        [[some 5, some 5], [some 6, some 6]].getD 1 [] ∧
      Event.logMsg (mismatchMsg 1 2 1) ∈ (persist persistStore persistDiffs "Z-Index").2) :=
  ⟨(c2_shape_mismatch_skip persistStore persistDiffs "Z-Index" _ rfl (by decide) 0 (by decide)
      [some 1, some 2] rfl).1 (by decide),
    (c2_shape_mismatch_skip persistStore persistDiffs "Z-Index" _ rfl (by decide) 1 (by decide)
      [some 3] rfl).2 (by decide)⟩

/-- C6: persistence is idempotent — running `persist` twice with the same
diff map and label leaves the same store as one run, the store holds exactly
one variable named `"diffs_" + label`, and the second run re-creates nothing
(its trace has no variable creation), the pre-existing variable being reused
as-is.  Stated for stores whose variable names do not already duplicate the
diff variable (NetCDF names are unique). -/
theorem c6_persist_idempotent (s : Store) (d : DiffMap) (label : String)
    (hcount : (s.vars.map Prod.fst).count ("diffs_" ++ label) ≤ 1) :
    (persist (persist s d label).1 d label).1 = (persist s d label).1 ∧
    ((persist s d label).1.vars.map Prod.fst).count ("diffs_" ++ label) = 1 ∧
    ∀ n, Event.createVar n ∉ (persist (persist s d label).1 d label).2 := by
  refine ⟨persist_idem s d label, ?_, ?_⟩
  · by_cases h : (s.getVar ("diffs_" ++ label)).isSome
    · rw [persist_of_present s d label h, writeLoop_keys]
      have hmem : ("diffs_" ++ label) ∈ s.vars.map Prod.fst := by
        by_contra hc
        rw [← lookupVar_eq_none_iff] at hc
        have : (s.getVar ("diffs_" ++ label)).isSome = false := by
          show (lookupVar s.vars ("diffs_" ++ label)).isSome = false
          rw [hc]
          rfl
        rw [this] at h
        cases h
      have hpos : 0 < (s.vars.map Prod.fst).count ("diffs_" ++ label) :=
        List.count_pos_iff.mpr hmem
      omega
    · rw [persist_of_absent s d label (Option.not_isSome_iff_eq_none.mp h), writeLoop_keys]
      show ((s.vars ++ [("diffs_" ++ label, fillRows s.divisions.length s.timeSize)]).map
        Prod.fst).count ("diffs_" ++ label) = 1
      rw [List.map_append, List.count_append]
      have h0 : (s.vars.map Prod.fst).count ("diffs_" ++ label) = 0 := by
        rw [List.count_eq_zero, ← lookupVar_eq_none_iff]
        exact Option.not_isSome_iff_eq_none.mp h
      rw [h0]
      simp
  · intro n hmem
    rw [persist_snd] at hmem
    rcases List.mem_append.mp hmem with hmem | hmem
    · have hpr := provision_of_present (persist s d label).1 ("diffs_" ++ label)
        (persist_getVar s d label)
      rw [hpr] at hmem
      exact absurd hmem (by simp)
    · rcases writeLoop_events _ _ _ _ _ _ _ hmem with ⟨j, hj⟩ | ⟨msg, hmsg⟩
      · cases hj
      · cases hmsg

/-- Witness for C6 at `persistStore`, which already holds `diffs_Z-Index`. -/
theorem c6_witness :
    (persist (persist persistStore persistDiffs "Z-Index").1 persistDiffs "Z-Index").1 =
      (persist persistStore persistDiffs "Z-Index").1 ∧
    ((persist persistStore persistDiffs "Z-Index").1.vars.map Prod.fst).count
      "diffs_Z-Index" = 1 ∧
    Event.createVar "diffs_Z-Index" ∉
      (persist (persist persistStore persistDiffs "Z-Index").1 persistDiffs "Z-Index").2 := by
  obtain ⟨h1, h2, h3⟩ := c6_persist_idempotent persistStore persistDiffs "Z-Index" (by decide)
  exact ⟨h1, h2, h3 "diffs_Z-Index"⟩

/-- C7: the persist step writes only rows of the `"diffs_" + label` variable —
every other variable's contents are unchanged — and for every division
ordinal with no entry in the diff map, that division's row of a pre-existing
diff variable is left untouched. -/
theorem c7_persist_frame (s : Store) (d : DiffMap) (label : String) :
    (∀ v, v ≠ "diffs_" ++ label → (persist s d label).1.getVar v = s.getVar v) ∧
    (∀ rows, s.getVar ("diffs_" ++ label) = some rows →
      ∀ p : Nat, d ((p : Nat) : Int) = none →
        rowAt (persist s d label).1 ("diffs_" ++ label) p = rows.getD p []) := by
  constructor
  · intro v hv
    rw [persist_fst, writeLoop_getVar_other _ _ _ _ _ _ v hv]
    exact provision_getVar_other s _ v hv
  · intro rows hrows p hd
    have hpres : (s.getVar ("diffs_" ++ label)).isSome := by
      rw [hrows]
      rfl
    rw [persist_of_present s d label hpres]
    have hu : ∀ arr, d ((p : Nat) : Int) = some arr → arr.length ≠ s.timeSize := by
      intro arr harr
      rw [hd] at harr
      cases harr
    rw [writeLoop_row_untouched s.timeSize d ("diffs_" ++ label) s.divisions 0 s p hu]
    simp only [rowAt, hrows, Option.getD_some]

/-- Witness for C7 at `persistStore`: the unrelated variable keeps its
contents and an ordinal without a diff entry keeps its row. -/
theorem c7_witness :
    (persist persistStore persistDiffs "Z-Index").1.getVar "other_var" =
      persistStore.getVar "other_var" ∧
    rowAt (persist persistStore persistDiffs "Z-Index").1 "diffs_Z-Index" 5 =
      [[some 5, some 5], [some 6, some 6]].getD 5 [] := by
  obtain ⟨h1, h2⟩ := c7_persist_frame persistStore persistDiffs "Z-Index"
  exact ⟨h1 "other_var" (by decide), h2 _ rfl 5 rfl⟩

/-- Counterexample to C10 as stated: a run of the persist step that performs a
row write whose event trace contains no lock acquisition and no lock release
— the module-level lock of source line 39 is never used, so writes are not
serialized by any lock, let alone one keyed on the file's path. -/
theorem c10_counterexample :
    Event.writeRow "diffs_Z-Index" 0 ∈ (persist persistStore persistDiffs "Z-Index").2 ∧
    Event.lockAcquire ∉ (persist persistStore persistDiffs "Z-Index").2 ∧
    Event.lockRelease ∉ (persist persistStore persistDiffs "Z-Index").2 := by
  refine ⟨?_, ?_, ?_⟩
  · decide
  · decide
  · decide

/-- C10 (amended): the module defines a process-wide `multiprocessing.Lock()`
but the write section never acquires or releases it: no persist trace
contains a lock event, for any store, diff map and label. -/
theorem c10_no_lock_events (s : Store) (d : DiffMap) (label : String) :
    Event.lockAcquire ∉ (persist s d label).2 ∧
    Event.lockRelease ∉ (persist s d label).2 := by
  constructor <;> intro hmem <;> rw [persist_snd] at hmem <;>
    rcases List.mem_append.mp hmem with hmem | hmem
  · obtain ⟨n, hn⟩ := provision_events _ _ _ hmem
    cases hn
  · rcases writeLoop_events _ _ _ _ _ _ _ hmem with ⟨j, hj⟩ | ⟨msg, hmsg⟩
    · cases hj
    · cases hmsg
  · obtain ⟨n, hn⟩ := provision_events _ _ _ hmem
    cases hn
  · rcases writeLoop_events _ _ _ _ _ _ _ hmem with ⟨j, hj⟩ | ⟨msg, hmsg⟩
    · cases hj
    · cases hmsg

/-- Witness for the amended C10 at a concrete store. -/
theorem c10_witness :
    Event.lockAcquire ∉ (persist exampleStore persistDiffs "PDSI").2 ∧
    Event.lockRelease ∉ (persist exampleStore persistDiffs "PDSI").2 :=
  c10_no_lock_events exampleStore persistDiffs "PDSI"

end Nclimgrid
